import Mathlib

/-!
Shallow embedding of the itchy-rust streaming ITCH decoder (src/src/lib.rs).

Bytes are modelled as `Nat` (the parsers only ever compare them with byte
literals, and theorems that depend on byte ranges carry `< 256` hypotheses).
nom's `IResult<&[u8], O>` becomes `IResult α` below; error payloads
(`nom::Err` kinds) are dropped because nothing in the repository inspects
them, and the `Needed` count carried by `Incomplete` is propagated unchanged
through sequencing (the stream driver never inspects it).
-/

/-- Result of a nom-style parser over a byte list: `Done rest value`,
a hard parse `Error`, or `Incomplete n` ("need more bytes", with the
`Needed::Size` payload). -/
inductive IResult (α : Type) where
  | Done (rest : List Nat) (val : α)
  | Error
  | Incomplete (needed : Nat)
  deriving DecidableEq

/-- Sequencing of parser results, as in nom's `do_parse!`: continue on
`Done`, propagate `Error` and `Incomplete`. -/
def IResult.bind {α β : Type} (r : IResult α) (f : List Nat → α → IResult β) : IResult β :=
  match r with
  | .Done rest a => f rest a
  | .Error => .Error
  | .Incomplete n => .Incomplete n

/-- nom's `map!`: apply a function to the parsed value. -/
def mapR {α β : Type} (r : IResult α) (f : α → β) : IResult β :=
  match r with
  | .Done rest a => .Done rest (f a)
  | .Error => .Error
  | .Incomplete n => .Incomplete n

/-- True exactly on `Incomplete`. -/
def IResult.isIncomplete {α : Type} : IResult α → Bool
  | .Incomplete _ => true
  | _ => false

/-- nom's `be_u8`: one byte. -/
def be_u8 : List Nat → IResult Nat
  | [] => .Incomplete 1
  | b :: rest => .Done rest b

/-- nom's `be_u16`: two bytes, big-endian. -/
def be_u16 : List Nat → IResult Nat
  | a :: b :: rest => .Done rest (a * 256 + b)
  | _ => .Incomplete 2

/-- nom's `be_u32`: four bytes, big-endian. -/
def be_u32 : List Nat → IResult Nat
  | a :: b :: c :: d :: rest =>
      .Done rest (((a * 256 + b) * 256 + c) * 256 + d)
  | _ => .Incomplete 4

/-- nom's `be_u64`: eight bytes, big-endian. -/
def be_u64 : List Nat → IResult Nat
  | a :: b :: c :: d :: e :: f :: g :: h :: rest =>
      .Done rest (((((((a * 256 + b) * 256 + c) * 256 + d) * 256 + e) * 256 + f) * 256 + g) * 256 + h)
  | _ => .Incomplete 8

/-- The custom 48-bit big-endian decoder of src/src/lib.rs (`be_u48`):
fewer than 6 bytes is `Incomplete(Needed::Size(6))`, otherwise the six
bytes are shifted into a 64-bit value. -/
def be_u48 (i : List Nat) : IResult Nat :=
  if i.length < 6 then .Incomplete 6
  else
    .Done (i.drop 6)
      (i.getD 0 0 * 2 ^ 40 + i.getD 1 0 * 2 ^ 32 + i.getD 2 0 * 2 ^ 24 +
        i.getD 3 0 * 2 ^ 16 + i.getD 4 0 * 2 ^ 8 + i.getD 5 0)

/-- nom's `char!(c)`: `Incomplete` on empty input, `Done` when the first
byte is `c`, `Error` otherwise. -/
def pchar (c : Nat) : List Nat → IResult Nat
  | [] => .Incomplete 1
  | b :: rest => if b = c then .Done rest b else .Error

/-- nom's `take!(n)`: exactly `n` raw bytes. -/
def ptake (n : Nat) (i : List Nat) : IResult (List Nat) :=
  if i.length < n then .Incomplete n else .Done (i.drop n) (i.take n)

/-- Rust's `str::from_utf8` validity check (standard UTF-8 table:
no overlong encodings, no surrogates, max U+10FFFF). -/
def utf8Valid : List Nat → Bool
  | [] => true
  | b :: rest =>
    if b ≤ 0x7F then utf8Valid rest
    else if 0xC2 ≤ b ∧ b ≤ 0xDF then
      match rest with
      | c :: r => (0x80 ≤ c && c ≤ 0xBF) && utf8Valid r
      | [] => false
    else if b = 0xE0 then
      match rest with
      | c :: d :: r => (0xA0 ≤ c && c ≤ 0xBF) && (0x80 ≤ d && d ≤ 0xBF) && utf8Valid r
      | _ => false
    else if (0xE1 ≤ b ∧ b ≤ 0xEC) ∨ b = 0xEE ∨ b = 0xEF then
      match rest with
      | c :: d :: r => (0x80 ≤ c && c ≤ 0xBF) && (0x80 ≤ d && d ≤ 0xBF) && utf8Valid r
      | _ => false
    else if b = 0xED then
      match rest with
      | c :: d :: r => (0x80 ≤ c && c ≤ 0x9F) && (0x80 ≤ d && d ≤ 0xBF) && utf8Valid r
      | _ => false
    else if b = 0xF0 then
      match rest with
      | c :: d :: e :: r =>
          (0x90 ≤ c && c ≤ 0xBF) && (0x80 ≤ d && d ≤ 0xBF) && (0x80 ≤ e && e ≤ 0xBF) &&
            utf8Valid r
      | _ => false
    else if 0xF1 ≤ b ∧ b ≤ 0xF3 then
      match rest with
      | c :: d :: e :: r =>
          (0x80 ≤ c && c ≤ 0xBF) && (0x80 ≤ d && d ≤ 0xBF) && (0x80 ≤ e && e ≤ 0xBF) &&
            utf8Valid r
      | _ => false
    else if b = 0xF4 then
      match rest with
      | c :: d :: e :: r =>
          (0x80 ≤ c && c ≤ 0x8F) && (0x80 ≤ d && d ≤ 0xBF) && (0x80 ≤ e && e ≤ 0xBF) &&
            utf8Valid r
      | _ => false
    else false

/-- nom's `take_str!(n)` = `map_res!(take!(n), str::from_utf8)`: `n` raw
bytes that must form valid UTF-8; invalid bytes are a hard `Error`
(`map_res` failure), not `Incomplete`.  The decoded value is kept as the
exact byte list (the source stores it in an `ArrayString` of the same
capacity, so `ArrayString::from(s).unwrap()` never fails). -/
def take_str (n : Nat) (i : List Nat) : IResult (List Nat) :=
  match ptake n i with
  | .Done rest s => if utf8Valid s then .Done rest s else .Error
  | .Error => .Error
  | .Incomplete k => .Incomplete k

/-- nom's `alt!` over a list of `char!(c) => value` branches, tried in
order: `Done` on the first byte match, `Incomplete` as soon as a branch is
incomplete (which for `char!` happens only on empty input), `Error` when
every branch fails. -/
def charAlt {α : Type} : List (Nat × α) → List Nat → IResult α
  | [], _ => .Error
  | (c, v) :: branches, i =>
    match pchar c i with
    | .Done r _ => .Done r v
    | .Incomplete n => .Incomplete n
    | .Error => charAlt branches i

/-- The `char2bool` parser of src/src/lib.rs: `'Y'` ↦ true, `'N'` ↦ false. -/
def char2bool (i : List Nat) : IResult Bool :=
  charAlt [(0x59, true), (0x4E, false)] i

/-- The `maybe_char2bool` parser of src/src/lib.rs: `'Y'` ↦ some true, `'N'` ↦
some false, `' '` ↦ none. -/
def maybe_char2bool (i : List Nat) : IResult (Option Bool) :=
  charAlt [(0x59, some true), (0x4E, some false), (0x20, none)] i

/-! ### Data model

The repository's `enums` module is not under src/; for each enum below the
constructors actually named in src/src/lib.rs are fixed by the source, and
where a claim would otherwise be vacuous an extra constructor is added.
-/

/-- System event codes ('O','S','Q','M','E','C' in `parse_system_event`). -/
inductive EventCode where
  | StartOfMessages | StartOfSystemHours | StartOfMarketHours
  | EndOfMarketHours | EndOfSystemHours | EndOfMessages
  deriving DecidableEq

/-- Market categories of `parse_stock_directory` (the `NasdaqCaptialMarket`
spelling is the source's). -/
inductive MarketCategory where
  | NasdaqGlobalSelect | NasdaqGlobalMarket | NasdaqCaptialMarket
  | Nyse | NyseMkt | NyseArca | BatsZExchange | Unavailable
  deriving DecidableEq

/-- Financial status codes of `parse_stock_directory`. -/
inductive FinancialStatus where
  | Normal | Deficient | Delinquent | Bankrupt | Suspended
  | DeficientBankrupt | DeficientDelinquent | DelinquentBankrupt
  | DeficientDelinquentBankrupt | EtpSuspended | Unavailable
  deriving DecidableEq

/-- Modelled from the spec: the enums module holding `IssueClassification`
is missing from src/; only the `Unit` constructor is named in
src/src/lib.rs, and `Other` stands in for the rest of the wire table so
that constancy statements about the field are not vacuous. -/
inductive IssueClassification where
  | Unit | Other
  deriving DecidableEq

/-- Modelled from the spec: the enums module holding `IssueSubType` is
missing from src/; only `AlphaIndexETNs` is named in src/src/lib.rs, and
`Other` stands in for the rest of the wire table. -/
inductive IssueSubType where
  | AlphaIndexETNs | Other
  deriving DecidableEq

/-- LULD reference price tiers of `parse_stock_directory`. -/
inductive LuldRefPriceTier where
  | Na | Tier1 | Tier2
  deriving DecidableEq

/-- Reg-SHO actions of `parse_reg_sho_restriction`. -/
inductive RegShoAction where
  | None | Intraday | Extant
  deriving DecidableEq

/-- Trading states of `parse_trading_action`. -/
inductive TradingState where
  | Halted | Paused | QuotationOnly | Trading
  deriving DecidableEq

/-- Market maker modes of `parse_participant_position`. -/
inductive MarketMakerMode where
  | Normal | Passive | Syndicate | Presyndicate | Penalty
  deriving DecidableEq

/-- Market participant states of `parse_participant_position`. -/
inductive MarketParticipantState where
  | Active | Excused | Withdrawn | Suspended | Deleted
  deriving DecidableEq

/-- Order sides of `parse_add_order`. -/
inductive Side where
  | Buy | Sell
  deriving DecidableEq

/-- The `MsgHeader` struct of src/src/lib.rs. -/
structure MsgHeader where
  stock_locate : Nat
  tracking_number : Nat
  timestamp : Nat
  deriving DecidableEq

/-- The `StockDirectory` struct of src/src/lib.rs; fixed-length text fields are kept
as their exact byte lists. -/
structure StockDirectory where
  stock : List Nat
  market_category : MarketCategory
  financial_status : FinancialStatus
  round_lot_size : Nat
  round_lots_only : Bool
  issue_classification : IssueClassification
  issue_subtype : IssueSubType
  authenticity : Bool
  short_sale_threshold : Option Bool
  ipo_flag : Option Bool
  luld_ref_price_tier : LuldRefPriceTier
  etp_flag : Option Bool
  etp_leverage_factor : Nat
  inverse_indicator : Bool
  deriving DecidableEq

/-- The `MarketParticipantPosition` struct of src/src/lib.rs. -/
structure MarketParticipantPosition where
  mpid : List Nat
  stock : List Nat
  primary_market_maker : Bool
  market_maker_mode : MarketMakerMode
  market_participant_state : MarketParticipantState
  deriving DecidableEq

/-- The `AddOrder` struct of src/src/lib.rs. -/
structure AddOrder where
  reference : Nat
  side : Side
  shares : Nat
  stock : List Nat
  price : Nat
  deriving DecidableEq

/-- The `ReplaceOrder` struct of src/src/lib.rs. -/
structure ReplaceOrder where
  old_reference : Nat
  new_reference : Nat
  shares : Nat
  price : Nat
  deriving DecidableEq

/-- The `MessageBody` variant type of src/src/lib.rs; the `Unknown` tag byte is kept as a
`Nat` (the source stores it as `char`). -/
inductive MessageBody where
  | AddOrder (order : AddOrder)
  | ReplaceOrder (order : ReplaceOrder)
  | DeleteOrder (reference : Nat)
  | SystemEvent (event : EventCode)
  | RegShoRestriction (stock : List Nat) (action : RegShoAction)
  | TradingAction (stock : List Nat) (trading_state : TradingState) (reason : List Nat)
  | StockDirectory (sd : StockDirectory)
  | ParticipantPosition (pp : MarketParticipantPosition)
  | Unknown (length : Nat) (tag : Nat) (content : List Nat)
  deriving DecidableEq

/-- The `Message` struct of src/src/lib.rs. -/
structure Message where
  header : MsgHeader
  body : MessageBody
  deriving DecidableEq

/-! ### Record grammar -/

/-- The `parse_message_header` parser: stock locate, tracking number, 48-bit timestamp. -/
def parse_message_header (i : List Nat) : IResult MsgHeader :=
  (be_u16 i).bind fun i1 stock_locate =>
  (be_u16 i1).bind fun i2 tracking_number =>
  (be_u48 i2).bind fun i3 timestamp =>
  .Done i3 { stock_locate, tracking_number, timestamp }

/-- The `parse_system_event` parser. -/
def parse_system_event (i : List Nat) : IResult MessageBody :=
  (charAlt [(0x4F, EventCode.StartOfMessages), (0x53, .StartOfSystemHours),
            (0x51, .StartOfMarketHours), (0x4D, .EndOfMarketHours),
            (0x45, .EndOfSystemHours), (0x43, .EndOfMessages)] i).bind
  fun rest event => .Done rest (.SystemEvent event)

/-- The `parse_stock_directory` parser.  The two `value!(…, take!(…))` steps skip one
and two bytes and put the constants `IssueClassification::Unit` and
`IssueSubType::AlphaIndexETNs` in the record (the source marks them as
dummy values). -/
def parse_stock_directory (i : List Nat) : IResult StockDirectory :=
  (take_str 8 i).bind fun i1 stock =>
  (charAlt [(0x51, MarketCategory.NasdaqGlobalSelect), (0x47, .NasdaqGlobalMarket),
            (0x53, .NasdaqCaptialMarket), (0x4E, .Nyse), (0x41, .NyseMkt),
            (0x50, .NyseArca), (0x5A, .BatsZExchange), (0x20, .Unavailable)] i1).bind
  fun i2 market_category =>
  (charAlt [(0x4E, FinancialStatus.Normal), (0x44, .Deficient), (0x45, .Delinquent),
            (0x51, .Bankrupt), (0x53, .Suspended), (0x47, .DeficientBankrupt),
            (0x48, .DeficientDelinquent), (0x4A, .DelinquentBankrupt),
            (0x4B, .DeficientDelinquentBankrupt), (0x43, .EtpSuspended),
            (0x20, .Unavailable)] i2).bind
  fun i3 financial_status =>
  (be_u32 i3).bind fun i4 round_lot_size =>
  (char2bool i4).bind fun i5 round_lots_only =>
  (ptake 1 i5).bind fun i6 _ =>
  (ptake 2 i6).bind fun i7 _ =>
  (charAlt [(0x50, true), (0x54, false)] i7).bind fun i8 authenticity =>
  (maybe_char2bool i8).bind fun i9 short_sale_threshold =>
  (maybe_char2bool i9).bind fun i10 ipo_flag =>
  (charAlt [(0x20, LuldRefPriceTier.Na), (0x31, .Tier1), (0x32, .Tier2)] i10).bind
  fun i11 luld_ref_price_tier =>
  (maybe_char2bool i11).bind fun i12 etp_flag =>
  (be_u32 i12).bind fun i13 etp_leverage_factor =>
  (char2bool i13).bind fun i14 inverse_indicator =>
  .Done i14
    { stock, market_category, financial_status, round_lot_size, round_lots_only,
      issue_classification := IssueClassification.Unit,
      issue_subtype := IssueSubType.AlphaIndexETNs,
      authenticity, short_sale_threshold, ipo_flag,
      luld_ref_price_tier, etp_flag, etp_leverage_factor, inverse_indicator }

/-- The `parse_participant_position` parser. -/
def parse_participant_position (i : List Nat) : IResult MarketParticipantPosition :=
  (take_str 4 i).bind fun i1 mpid =>
  (take_str 8 i1).bind fun i2 stock =>
  (char2bool i2).bind fun i3 primary_market_maker =>
  (charAlt [(0x4E, MarketMakerMode.Normal), (0x50, .Passive), (0x53, .Syndicate),
            (0x52, .Presyndicate), (0x4C, .Penalty)] i3).bind
  fun i4 market_maker_mode =>
  (charAlt [(0x41, MarketParticipantState.Active), (0x45, .Excused),
            (0x57, .Withdrawn), (0x53, .Suspended), (0x44, .Deleted)] i4).bind
  fun i5 market_participant_state =>
  .Done i5 { mpid, stock, primary_market_maker, market_maker_mode, market_participant_state }

/-- The `parse_reg_sho_restriction` parser. -/
def parse_reg_sho_restriction (i : List Nat) : IResult MessageBody :=
  (take_str 8 i).bind fun i1 stock =>
  (charAlt [(0x30, RegShoAction.None), (0x31, .Intraday), (0x32, .Extant)] i1).bind
  fun i2 action => .Done i2 (.RegShoRestriction stock action)

/-- The `parse_trading_action` parser: 8-byte symbol, 1-byte state, one reserved byte
skipped with `be_u8`, then the 4-byte reason. -/
def parse_trading_action (i : List Nat) : IResult MessageBody :=
  (take_str 8 i).bind fun i1 stock =>
  (charAlt [(0x48, TradingState.Halted), (0x50, .Paused), (0x51, .QuotationOnly),
            (0x54, .Trading)] i1).bind
  fun i2 trading_state =>
  (be_u8 i2).bind fun i3 _ =>
  (take_str 4 i3).bind fun i4 reason =>
  .Done i4 (.TradingAction stock trading_state reason)

/-- The `parse_add_order` parser. -/
def parse_add_order (i : List Nat) : IResult AddOrder :=
  (be_u64 i).bind fun i1 reference =>
  (charAlt [(0x42, Side.Buy), (0x53, Side.Sell)] i1).bind fun i2 side =>
  (be_u32 i2).bind fun i3 shares =>
  (take_str 8 i3).bind fun i4 stock =>
  (be_u32 i4).bind fun i5 price =>
  .Done i5 { reference, side, shares, stock, price }

/-- The `parse_replace_order` parser. -/
def parse_replace_order (i : List Nat) : IResult ReplaceOrder :=
  (be_u64 i).bind fun i1 old_reference =>
  (be_u64 i1).bind fun i2 new_reference =>
  (be_u32 i2).bind fun i3 shares =>
  (be_u32 i3).bind fun i4 price =>
  .Done i4 { old_reference, new_reference, shares, price }

/-- The `parse_message` parser: declared u16 frame length, tag byte, common header,
then the tag switch; an unrecognized tag takes `length - 11` raw bytes
(u16 arithmetic, hence the wrap modulo 2^16) as the `Unknown` payload. -/
def parse_message (i : List Nat) : IResult Message :=
  (be_u16 i).bind fun i1 length =>
  (be_u8 i1).bind fun i2 tag =>
  (parse_message_header i2).bind fun i3 header =>
  (if tag = 0x53 then parse_system_event i3
   else if tag = 0x52 then mapR (parse_stock_directory i3) MessageBody.StockDirectory
   else if tag = 0x4C then mapR (parse_participant_position i3) MessageBody.ParticipantPosition
   else if tag = 0x59 then parse_reg_sho_restriction i3
   else if tag = 0x48 then parse_trading_action i3
   else if tag = 0x41 then mapR (parse_add_order i3) MessageBody.AddOrder
   else if tag = 0x55 then mapR (parse_replace_order i3) MessageBody.ReplaceOrder
   else if tag = 0x44 then mapR (be_u64 i3) (fun reference => MessageBody.DeleteOrder reference)
   else mapR (ptake ((length + 65536 - 11) % 65536) i3)
          (fun slice => MessageBody.Unknown length tag slice)).bind
  fun rest body => .Done rest { header, body }

/-! ### Window buffer and stream decoder -/

/-- The buffer capacity `BUFSIZE` of src/src/lib.rs. -/
def BUFSIZE : Nat := 200

/-- Concatenation of a list of byte chunks. -/
def flattenL : List (List Nat) → List Nat
  | [] => []
  | c :: cs => c ++ flattenL cs

/-- Total number of bytes a chunked source still holds. -/
def totalLen (cs : List (List Nat)) : Nat := (flattenL cs).length

/-- One `Read::read` call against a source that delivers its bytes as a
fixed list of chunks (e.g. a chain of in-memory cursors): empty chunks are
skipped, and the current chunk supplies at most `space` bytes. -/
def sourceRead : List (List Nat) → Nat → List Nat × List (List Nat)
  | [], _ => ([], [])
  | [] :: cs, space => sourceRead cs space
  | (b :: bs) :: cs, space =>
    if (b :: bs).length ≤ space then (b :: bs, cs)
    else ((b :: bs).take space, (b :: bs).drop space :: cs)

/-- The compaction step of `fetch_more_bytes`: with
`(left, right) = buffer.split_at_mut(bufstart)`, the slice copy
`left[..right.len()].copy_from_slice(&right)` turns `left ++ right` into
`(right ++ left.drop right.length) ++ right`. -/
def compactBuffer (buf : List Nat) (bufstart : Nat) : List Nat :=
  (buf.drop bufstart ++ (buf.take bufstart).drop (buf.drop bufstart).length) ++
    buf.drop bufstart

/-- Writing `d` into `buf` starting at position `pos`
(`self.buffer[self.bufend..]` receiving a read). -/
def writeAt (buf : List Nat) (pos : Nat) (d : List Nat) : List Nat :=
  buf.take pos ++ d ++ buf.drop (pos + d.length)

/-- The `MessageStream` struct of src/src/lib.rs; the `reader` is the chunked byte
source described at `sourceRead`. -/
structure MessageStream where
  reader : List (List Nat)
  buffer : List Nat
  bufstart : Nat
  bufend : Nat
  bytes_read : Nat
  read_calls : Nat
  messages : Nat

/-- The constructor `MessageStream::new`. -/
def MessageStream.new (reader : List (List Nat)) : MessageStream :=
  { reader, buffer := List.replicate BUFSIZE 0, bufstart := 0, bufend := 0,
    bytes_read := 0, read_calls := 0, messages := 0 }

/-- The slice `&self.buffer[self.bufstart..self.bufend]` handed to
`parse_message`. -/
def window (s : MessageStream) : List Nat := (s.buffer.take s.bufend).drop s.bufstart

/-- The refill operation `MessageStream::fetch_more_bytes`.  Here `none` models an assertion failure
(the source `assert!`s that compaction only ever moves a small tail); on
success the result carries the read count, which the caller adds to
`bufend` and `bytes_read`. -/
def MessageStream.fetch_more_bytes (s : MessageStream) : Option (MessageStream × Nat) :=
  let s0 : MessageStream := { s with read_calls := s.read_calls + 1 }
  (if s0.bufend = BUFSIZE then
     if BUFSIZE / 2 < s0.bufstart ∧ BUFSIZE - s0.bufstart < 50 then
       some { s0 with buffer := compactBuffer s0.buffer s0.bufstart,
                      bufstart := 0, bufend := BUFSIZE - s0.bufstart }
     else none
   else some s0).bind
  fun s1 =>
    let rd := sourceRead s1.reader (BUFSIZE - s1.bufend)
    some ({ s1 with reader := rd.2, buffer := writeAt s1.buffer s1.bufend rd.1 }, rd.1.length)

theorem sourceRead_append : ∀ (cs : List (List Nat)) (k : Nat),
    (sourceRead cs k).1 ++ flattenL (sourceRead cs k).2 = flattenL cs := by
  intro cs k
  induction cs with
  | nil => simp [sourceRead, flattenL]
  | cons c cs ih =>
    cases c with
    | nil => simpa [sourceRead, flattenL] using ih
    | cons b bs =>
      simp only [sourceRead]
      by_cases h : bs.length + 1 ≤ k
      · rw [if_pos (by simpa using h)]
        simp [flattenL]
      · rw [if_neg (by simpa using h)]
        simp [flattenL, ← List.append_assoc, List.take_append_drop]

theorem fetch_totalLen (s s' : MessageStream) (ct : Nat)
    (h : s.fetch_more_bytes = some (s', ct)) :
    totalLen s'.reader + ct = totalLen s.reader := by
  unfold MessageStream.fetch_more_bytes at h
  by_cases he : s.bufend = BUFSIZE
  · by_cases ha : BUFSIZE / 2 < s.bufstart ∧ BUFSIZE - s.bufstart < 50
    · simp only [he, ha, if_true, Option.bind] at h
      obtain ⟨h1, h2⟩ := Prod.mk.injEq .. ▸ (Option.some.injEq .. ▸ h)
      have hl := congrArg List.length (sourceRead_append s.reader (BUFSIZE - (BUFSIZE - s.bufstart)))
      subst h2
      rw [← h1]
      simp only [List.length_append, totalLen] at hl ⊢
      omega
    · simp [he, ha, Option.bind] at h
  · simp only [he, if_false, Option.bind] at h
    obtain ⟨h1, h2⟩ := Prod.mk.injEq .. ▸ (Option.some.injEq .. ▸ h)
    have hl := congrArg List.length (sourceRead_append s.reader (BUFSIZE - s.bufend))
    subst h2
    rw [← h1]
    simp only [List.length_append, totalLen] at hl ⊢
    omega

/-- One driving step of `Iterator::next` for `MessageStream`, with an
explicit recursion bound: try to parse the current window; on success
advance `bufstart` and yield the record; on a parse error yield the error;
on `Incomplete` fetch more bytes and retry, yielding "Unexpected EOF" when
the source delivers nothing.  `none` models the assertion panic inside
`fetch_more_bytes` (the Rust iterator itself never returns `None`); every
retry consumes at least one source byte, so any fuel above the bytes the
source still holds is enough, and `MessageStream.next` below supplies it. -/
def nextFuel : Nat → MessageStream → Option (MessageStream × Except String Message)
  | 0, _ => none
  | n + 1, s =>
    match parse_message (window s) with
    | .Done rest msg =>
      some ({ s with bufstart := s.bufend - rest.length, messages := s.messages + 1 }, .ok msg)
    | .Error => some (s, .error "Parse failed")
    | .Incomplete _ =>
      match s.fetch_more_bytes with
      | none => none
      | some (s1, ct) =>
        if ct = 0 then some (s1, .error "Unexpected EOF")
        else nextFuel n { s1 with bufend := s1.bufend + ct, bytes_read := s1.bytes_read + ct }

/-- The `Iterator::next` of `MessageStream` (src/src/lib.rs): `nextFuel` with
enough fuel for its refill-and-retry recursion. -/
def MessageStream.next (s : MessageStream) : Option (MessageStream × Except String Message) :=
  nextFuel (totalLen s.reader + 1) s

/-- Driving the iterator `n` times, collecting the yielded items ([] once
the assertion panic stops the stream). -/
def runStream : Nat → MessageStream → List (Except String Message)
  | 0, _ => []
  | n + 1, s =>
    match s.next with
    | none => []
    | some (s1, item) => item :: runStream n s1

/-! ### Basic facts about the window buffer -/

theorem window_length (s : MessageStream) (h1 : s.buffer.length = BUFSIZE)
    (h3 : s.bufend ≤ BUFSIZE) :
    (window s).length = s.bufend - s.bufstart := by
  simp [window, h1]
  omega

theorem sourceRead_len_le : ∀ (cs : List (List Nat)) (k : Nat),
    (sourceRead cs k).1.length ≤ k := by
  intro cs k
  induction cs with
  | nil => simp [sourceRead]
  | cons c cs ih =>
    cases c with
    | nil => simpa [sourceRead] using ih
    | cons b bs =>
      simp only [sourceRead]
      by_cases h : bs.length + 1 ≤ k
      · rw [if_pos (by simpa using h)]
        simpa using h
      · rw [if_neg (by simpa using h)]
        simp

theorem sourceRead_nil (cs : List (List Nat)) (k : Nat) (hk : 1 ≤ k)
    (h : (sourceRead cs k).1 = []) : flattenL cs = [] := by
  induction cs with
  | nil => simp [flattenL]
  | cons c cs ih =>
    cases c with
    | nil => simpa [flattenL] using ih (by simpa [sourceRead] using h)
    | cons b bs =>
      exfalso
      simp only [sourceRead] at h
      by_cases hc : bs.length + 1 ≤ k
      · rw [if_pos (by simpa using hc)] at h
        simp at h
      · rw [if_neg (by simpa using hc)] at h
        cases k with
        | zero => omega
        | succ k => simp [List.take] at h

theorem compactBuffer_length (buf : List Nat) (st : Nat) (hst : st ≤ buf.length)
    (hhalf : buf.length - st ≤ st) :
    (compactBuffer buf st).length = buf.length := by
  simp [compactBuffer]
  omega

theorem compactBuffer_take (buf : List Nat) (st : Nat) :
    (compactBuffer buf st).take (buf.length - st) = buf.drop st := by
  have hlen : (buf.drop st).length = buf.length - st := List.length_drop st buf
  calc (compactBuffer buf st).take (buf.length - st)
      = (buf.drop st ++ ((buf.take st).drop (buf.drop st).length ++ buf.drop st)).take
          (buf.drop st).length := by
        simp [compactBuffer, hlen]
    _ = buf.drop st := List.take_left ..

theorem writeAt_length (buf : List Nat) (pos : Nat) (d : List Nat)
    (h : pos + d.length ≤ buf.length) :
    (writeAt buf pos d).length = buf.length := by
  simp [writeAt]
  omega

theorem writeAt_take (buf : List Nat) (pos : Nat) (d : List Nat) (h : pos ≤ buf.length) :
    (writeAt buf pos d).take pos = buf.take pos := by
  have hlen : (buf.take pos).length = pos := by simp; omega
  calc (writeAt buf pos d).take pos
      = (buf.take pos ++ (d ++ buf.drop (pos + d.length))).take (buf.take pos).length := by
        simp [writeAt, hlen]
    _ = buf.take pos := List.take_left ..

theorem writeAt_take_bump (buf : List Nat) (pos : Nat) (d : List Nat) (h : pos ≤ buf.length) :
    (writeAt buf pos d).take (pos + d.length) = buf.take pos ++ d := by
  have hlen : (buf.take pos).length = pos := by simp; omega
  have hlen2 : ((buf.take pos ++ d)).length = pos + d.length := by simp [hlen]
  calc (writeAt buf pos d).take (pos + d.length)
      = ((buf.take pos ++ d) ++ buf.drop (pos + d.length)).take
          ((buf.take pos ++ d)).length := by simp [writeAt, hlen2]
    _ = buf.take pos ++ d := List.take_left ..


/-- The call `fetch_more_bytes` succeeds (no assertion failure) whenever the
compaction preconditions hold at a full buffer. -/
theorem fetch_some (s : MessageStream)
    (hok : s.bufend = BUFSIZE → BUFSIZE / 2 < s.bufstart ∧ BUFSIZE - s.bufstart < 50) :
    ∃ s' ct, s.fetch_more_bytes = some (s', ct) := by
  simp only [MessageStream.fetch_more_bytes]
  by_cases he : s.bufend = BUFSIZE
  · rw [if_pos he, if_pos (hok he)]
    exact ⟨_, _, rfl⟩
  · rw [if_neg he]
    exact ⟨_, _, rfl⟩

/-- Full behavioural description of a successful `fetch_more_bytes` call:
the delivered bytes come off the front of the source, the unconsumed
window is unchanged (compaction merely relocates it), the window after the
caller bumps `bufend` is the old window extended by the delivered bytes,
compaction happens exactly when the buffer was full, and a read that
delivers nothing while the buffer has free tail space means the source is
exhausted. -/
theorem fetch_spec (s : MessageStream)
    (h1 : s.buffer.length = BUFSIZE) (h2 : s.bufstart ≤ s.bufend) (h3 : s.bufend ≤ BUFSIZE)
    (s' : MessageStream) (ct : Nat) (hf : s.fetch_more_bytes = some (s', ct)) :
    ∃ d : List Nat,
      d.length = ct ∧
      d ++ flattenL s'.reader = flattenL s.reader ∧
      s'.buffer.length = BUFSIZE ∧
      s'.bufstart ≤ s'.bufend ∧
      s'.bufend + ct ≤ BUFSIZE ∧
      window s' = window s ∧
      window { s' with bufend := s'.bufend + ct, bytes_read := s'.bytes_read + ct } =
        window s ++ d ∧
      (s.bufend ≠ BUFSIZE → s'.bufstart = s.bufstart ∧ s'.bufend = s.bufend) ∧
      (s.bufend = BUFSIZE → s'.bufstart = 0 ∧ s'.bufend = BUFSIZE - s.bufstart) ∧
      (s'.bufend < BUFSIZE → ct = 0 → flattenL s.reader = []) := by
  simp only [MessageStream.fetch_more_bytes] at hf
  by_cases he : s.bufend = BUFSIZE
  · by_cases ha : BUFSIZE / 2 < s.bufstart ∧ BUFSIZE - s.bufstart < 50
    · rw [if_pos he, if_pos ha] at hf
      simp only [Option.bind, Option.some.injEq, Prod.mk.injEq] at hf
      obtain ⟨hs', hct⟩ := hf
      have hst : s.bufstart ≤ BUFSIZE := by omega
      have hhalf : s.buffer.length - s.bufstart ≤ s.bufstart := by omega
      have hclen : (compactBuffer s.buffer s.bufstart).length = BUFSIZE := by
        rw [compactBuffer_length s.buffer s.bufstart (by omega) hhalf, h1]
      have hle := sourceRead_len_le s.reader (BUFSIZE - (BUFSIZE - s.bufstart))
      refine ⟨(sourceRead s.reader (BUFSIZE - (BUFSIZE - s.bufstart))).1,
        ?_, ?_, ?_, ?_, ?_, ?_, ?_, ?_, ?_, ?_⟩
      · rw [← hct]
      · rw [← hs']
        exact sourceRead_append s.reader (BUFSIZE - (BUFSIZE - s.bufstart))
      · rw [← hs']
        show (writeAt (compactBuffer s.buffer s.bufstart) (BUFSIZE - s.bufstart)
          (sourceRead s.reader (BUFSIZE - (BUFSIZE - s.bufstart))).1).length = BUFSIZE
        rw [writeAt_length _ _ _ (by rw [hclen]; omega), hclen]
      · rw [← hs']
        show (0:Nat) ≤ BUFSIZE - s.bufstart
        omega
      · rw [← hs', ← hct]
        show BUFSIZE - s.bufstart +
          (sourceRead s.reader (BUFSIZE - (BUFSIZE - s.bufstart))).1.length ≤ BUFSIZE
        omega
      · rw [← hs']
        show ((writeAt (compactBuffer s.buffer s.bufstart) (BUFSIZE - s.bufstart)
          (sourceRead s.reader (BUFSIZE - (BUFSIZE - s.bufstart))).1).take
            (BUFSIZE - s.bufstart)).drop 0 = window s
        rw [List.drop_zero, writeAt_take _ _ _ (by rw [hclen]; omega)]
        rw [← h1, compactBuffer_take]
        unfold window
        rw [he, ← h1, List.take_length]
      · rw [← hs', ← hct]
        show ((writeAt (compactBuffer s.buffer s.bufstart) (BUFSIZE - s.bufstart)
          (sourceRead s.reader (BUFSIZE - (BUFSIZE - s.bufstart))).1).take
            (BUFSIZE - s.bufstart +
              (sourceRead s.reader (BUFSIZE - (BUFSIZE - s.bufstart))).1.length)).drop 0 =
          window s ++ (sourceRead s.reader (BUFSIZE - (BUFSIZE - s.bufstart))).1
        rw [List.drop_zero, writeAt_take_bump _ _ _ (by rw [hclen]; omega)]
        rw [← h1, compactBuffer_take]
        unfold window
        rw [he, ← h1, List.take_length]
      · intro hne
        exact absurd he hne
      · intro _
        rw [← hs']
        exact ⟨rfl, rfl⟩
      · intro hlt hct0
        apply sourceRead_nil s.reader (BUFSIZE - (BUFSIZE - s.bufstart))
        · rw [← hs'] at hlt
          show 1 ≤ BUFSIZE - (BUFSIZE - s.bufstart)
          have : BUFSIZE - s.bufstart < BUFSIZE := hlt
          omega
        · exact List.length_eq_zero.mp (by rw [hct]; exact hct0)
    · rw [if_pos he, if_neg ha] at hf
      simp [Option.bind] at hf
  · rw [if_neg he] at hf
    simp only [Option.bind, Option.some.injEq, Prod.mk.injEq] at hf
    obtain ⟨hs', hct⟩ := hf
    have hle := sourceRead_len_le s.reader (BUFSIZE - s.bufend)
    refine ⟨(sourceRead s.reader (BUFSIZE - s.bufend)).1,
      ?_, ?_, ?_, ?_, ?_, ?_, ?_, ?_, ?_, ?_⟩
    · rw [← hct]
    · rw [← hs']
      exact sourceRead_append s.reader (BUFSIZE - s.bufend)
    · rw [← hs']
      show (writeAt s.buffer s.bufend (sourceRead s.reader (BUFSIZE - s.bufend)).1).length
        = BUFSIZE
      rw [writeAt_length _ _ _ (by omega), h1]
    · rw [← hs']
      exact h2
    · rw [← hs', ← hct]
      show s.bufend + (sourceRead s.reader (BUFSIZE - s.bufend)).1.length ≤ BUFSIZE
      omega
    · rw [← hs']
      show ((writeAt s.buffer s.bufend (sourceRead s.reader (BUFSIZE - s.bufend)).1).take
        s.bufend).drop s.bufstart = window s
      rw [writeAt_take _ _ _ (by omega)]
      rfl
    · rw [← hs', ← hct]
      show ((writeAt s.buffer s.bufend (sourceRead s.reader (BUFSIZE - s.bufend)).1).take
        (s.bufend + (sourceRead s.reader (BUFSIZE - s.bufend)).1.length)).drop s.bufstart =
        window s ++ (sourceRead s.reader (BUFSIZE - s.bufend)).1
      rw [writeAt_take_bump _ _ _ (by omega)]
      unfold window
      rw [List.drop_append_of_le_length (by simp; omega)]
    · intro _
      rw [← hs']
      exact ⟨rfl, rfl⟩
    · intro habs
      exact absurd habs he
    · intro hlt hct0
      apply sourceRead_nil s.reader (BUFSIZE - s.bufend)
      · rw [← hs'] at hlt
        show 1 ≤ BUFSIZE - s.bufend
        omega
      · exact List.length_eq_zero.mp (by rw [hct]; exact hct0)

/-! ### Valid streams and the refinement invariant -/

theorem eq_take_of_append_eq {a b c d : List Nat} (h : a ++ b = c ++ d)
    (hl : a.length ≤ c.length) : a = c.take a.length := by
  have h1 := congrArg (List.take a.length) h
  rw [List.take_append_of_le_length hl] at h1
  calc a = (a ++ b).take a.length := (List.take_left ..).symm
    _ = c.take a.length := h1

/-- A wire frame `f` decoding to message `m`: the parse consumes exactly
`f` whatever follows, every proper front of `f` is `Incomplete`, and `f`
respects the design bound of spec §4.3 (every supported frame is smaller
than half the 200-byte window, which is what keeps the compaction
assertions of `fetch_more_bytes` true). -/
def ValidFrame (f : List Nat) (m : Message) : Prop :=
  f.length ≤ 50 ∧
  (∀ ext : List Nat, parse_message (f ++ ext) = .Done ext m) ∧
  (∀ k, k < f.length → (parse_message (f.take k)).isIncomplete = true)

/-- The wire bytes of a list of (frame, message) pairs. -/
def framesBytes (frames : List (List Nat × Message)) : List Nat :=
  flattenL (frames.map Prod.fst)

/-- The invariant tying a decoder state to the frames it still has to
deliver: the buffer indices are in range, and the unconsumed window
followed by the bytes still inside the source is exactly the remaining
frames' wire image. -/
def StreamWF (s : MessageStream) (frames : List (List Nat × Message)) : Prop :=
  s.buffer.length = BUFSIZE ∧ s.bufstart ≤ s.bufend ∧ s.bufend ≤ BUFSIZE ∧
  window s ++ flattenL s.reader = framesBytes frames ∧
  (∀ fm ∈ frames, ValidFrame fm.1 fm.2)

/-- The item the driver yields next: the head frame's message, or
"Unexpected EOF" forever once the frames are exhausted. -/
def headItem : List (List Nat × Message) → Except String Message
  | [] => .error "Unexpected EOF"
  | fm :: _ => .ok fm.2

/-- Reference output of a valid stream: one item per driving step. -/
def refOut : Nat → List (List Nat × Message) → List (Except String Message)
  | 0, _ => []
  | n + 1, frames => headItem frames :: refOut n frames.tail

/-- One driving step of a well-formed stream yields exactly the head item
and re-establishes the invariant for the remaining frames, provided the
fuel exceeds the bytes the source still holds. -/
theorem nextFuel_wf : ∀ (n : Nat) (s : MessageStream) (frames : List (List Nat × Message)),
    totalLen s.reader < n → StreamWF s frames →
    ∃ s', nextFuel n s = some (s', headItem frames) ∧ StreamWF s' frames.tail := by
  intro n
  induction n with
  | zero => intro s frames hn _; exact absurd hn (Nat.not_lt_zero _)
  | succ n ih =>
    intro s frames hn hwf
    have hB : BUFSIZE = 200 := rfl
    obtain ⟨hbuf, hse, heb, hcat, hval⟩ := hwf
    have hwl : (window s).length = s.bufend - s.bufstart := window_length s hbuf heb
    cases frames with
    | nil =>
      have hcat0 : window s ++ flattenL s.reader = [] := by
        simpa [framesBytes, flattenL] using hcat
      have hw0 : window s = [] := (List.nil_eq_append_iff.mp hcat0.symm).1
      have hr0 : flattenL s.reader = [] := (List.nil_eq_append_iff.mp hcat0.symm).2
      have hwl0 : s.bufend - s.bufstart = 0 := by rw [← hwl, hw0]; rfl
      have hparse : parse_message (window s) = .Incomplete 2 := by rw [hw0]; rfl
      have hok : s.bufend = BUFSIZE → BUFSIZE / 2 < s.bufstart ∧ BUFSIZE - s.bufstart < 50 := by
        intro he
        omega
      obtain ⟨s1, ct, hfetch⟩ := fetch_some s hok
      obtain ⟨d, hdlen, hdapp, hb1, hs1se, hs1eb, hwin1, hwinb, hnc, hc, hexh⟩ :=
        fetch_spec s hbuf hse heb s1 ct hfetch
      have hd0 : d = [] := by
        have hl := congrArg List.length hdapp
        rw [hr0] at hl
        simp only [List.length_append, List.length_nil] at hl
        exact List.length_eq_zero.mp (by omega)
      have hct0 : ct = 0 := by rw [← hdlen, hd0]; rfl
      refine ⟨s1, ?_, ?_⟩
      · simp only [nextFuel, hparse, hfetch, hct0, if_pos]
        rfl
      · refine ⟨hb1, hs1se, by omega, ?_, by simp⟩
        have hr1 : flattenL s1.reader = [] := by
          rw [hd0] at hdapp
          simpa [hr0] using hdapp
        rw [hwin1, hw0, hr1]
        rfl
    | cons fm rest =>
      obtain ⟨hf50, hfdone, hfpre⟩ := hval fm (List.mem_cons_self ..)
      have hcat' : window s ++ flattenL s.reader = fm.1 ++ framesBytes rest := by
        simpa [framesBytes, flattenL] using hcat
      by_cases hlen : fm.1.length ≤ (window s).length
      · -- the window holds the whole head frame: the parse succeeds
        have hfw : fm.1 = (window s).take fm.1.length :=
          eq_take_of_append_eq hcat'.symm hlen
        have hwsplit : window s = fm.1 ++ (window s).drop fm.1.length := by
          conv_lhs => rw [← List.take_append_drop fm.1.length (window s), ← hfw]
        have hparse : parse_message (window s) =
            .Done ((window s).drop fm.1.length) fm.2 := by
          conv_lhs => rw [hwsplit]
          exact hfdone _
        have hdl : ((window s).drop fm.1.length).length =
            (s.bufend - s.bufstart) - fm.1.length := by
          simp [hwl]
        refine ⟨{ s with bufstart := s.bufend - ((window s).drop fm.1.length).length, messages := s.messages + 1 }, ?_, ?_⟩
        · simp only [nextFuel, hparse]
          rfl
        · refine ⟨hbuf, by simp, by simpa using heb, ?_, fun gm hgm => hval gm (List.mem_cons_of_mem _ hgm)⟩
          have hidx : s.bufend - ((window s).drop fm.1.length).length =
              s.bufstart + fm.1.length := by
            rw [hdl]
            omega
          have hwin' : window { s with bufstart := s.bufend - ((window s).drop fm.1.length).length, messages := s.messages + 1 } = (window s).drop fm.1.length := by
            show (s.buffer.take s.bufend).drop
                (s.bufend - ((window s).drop fm.1.length).length) =
              (window s).drop fm.1.length
            rw [hidx]
            unfold window
            rw [List.drop_drop]
          rw [List.tail_cons]
          show window { s with bufstart := s.bufend - ((window s).drop fm.1.length).length, messages := s.messages + 1 } ++ flattenL s.reader = framesBytes rest
          rw [hwin']
          have h2 := hcat'
          rw [hwsplit, List.append_assoc] at h2
          exact List.append_cancel_left h2
      · -- the window is a proper front of the head frame: Incomplete, refill
        push_neg at hlen
        have hwtake : window s = fm.1.take (window s).length :=
          eq_take_of_append_eq hcat' (by omega)
        have hinc : (parse_message (window s)).isIncomplete = true := by
          rw [hwtake]
          exact hfpre _ (by omega)
        obtain ⟨nd, hparse⟩ : ∃ nd, parse_message (window s) = .Incomplete nd := by
          cases hp : parse_message (window s) <;>
            simp [hp, IResult.isIncomplete] at hinc ⊢
        have hok : s.bufend = BUFSIZE → BUFSIZE / 2 < s.bufstart ∧ BUFSIZE - s.bufstart < 50 := by
          intro he
          omega
        obtain ⟨s1, ct, hfetch⟩ := fetch_some s hok
        obtain ⟨d, hdlen, hdapp, hb1, hs1se, hs1eb, hwin1, hwinb, hnc, hc, hexh⟩ :=
          fetch_spec s hbuf hse heb s1 ct hfetch
        have hblt : s1.bufend < BUFSIZE := by
          by_cases he : s.bufend = BUFSIZE
          · obtain ⟨e1, e2⟩ := hc he
            have := (hok he).1
            omega
          · obtain ⟨e1, e2⟩ := hnc he
            omega
        have hctne : ct ≠ 0 := by
          intro hct0
          have hrnil := hexh hblt hct0
          rw [hrnil] at hcat'
          have hl := congrArg List.length hcat'
          simp only [List.length_append, List.length_nil, framesBytes] at hl
          omega
        have hwf2 : StreamWF { s1 with bufend := s1.bufend + ct, bytes_read := s1.bytes_read + ct } (fm :: rest) := by
          refine ⟨hb1, by simp; omega, by simp; omega, ?_, hval⟩
          show window { s1 with bufend := s1.bufend + ct, bytes_read := s1.bytes_read + ct } ++ flattenL s1.reader = framesBytes (fm :: rest)
          rw [hwinb]
          rw [List.append_assoc, hdapp]
          exact hcat
        have hm2 : totalLen ({ s1 with bufend := s1.bufend + ct, bytes_read := s1.bytes_read + ct }).reader < n := by
          have := fetch_totalLen s s1 ct hfetch
          show totalLen s1.reader < n
          omega
        obtain ⟨s', hnext, hwf'⟩ := ih _ (fm :: rest) hm2 hwf2
        refine ⟨s', ?_, hwf'⟩
        simp only [nextFuel, hparse, hfetch]
        rw [if_neg hctne]
        exact hnext

/-- Fuel irrelevance: `nextFuel` does not depend on the fuel once the fuel exceeds the bytes
the source still holds. -/
theorem nextFuel_irrel : ∀ (n n' : Nat) (s : MessageStream),
    totalLen s.reader < n → totalLen s.reader < n' → nextFuel n s = nextFuel n' s := by
  intro n
  induction n with
  | zero => intro n' s hn _; exact absurd hn (Nat.not_lt_zero _)
  | succ n ih =>
    intro n' s hn hn'
    cases n' with
    | zero => exact absurd hn' (Nat.not_lt_zero _)
    | succ n' =>
      simp only [nextFuel]
      cases hp : parse_message (window s) with
      | Done rest msg => rfl
      | Error => rfl
      | Incomplete nd =>
        cases hf : s.fetch_more_bytes with
        | none => rfl
        | some p =>
          obtain ⟨s1, ct⟩ := p
          by_cases hct : ct = 0
          · simp [hct]
          · simp only [if_neg hct]
            have htl := fetch_totalLen s s1 ct hf
            apply ih
            · show totalLen s1.reader < n
              omega
            · show totalLen s1.reader < n'
              omega

/-- One call to `MessageStream.next` on a well-formed stream yields the
head item and preserves the invariant. -/
theorem next_wf (s : MessageStream) (frames : List (List Nat × Message))
    (hwf : StreamWF s frames) :
    ∃ s', s.next = some (s', headItem frames) ∧ StreamWF s' frames.tail :=
  nextFuel_wf (totalLen s.reader + 1) s frames (Nat.lt_succ_self _) hwf

/-- Driving a well-formed stream produces exactly the reference output:
the remaining messages in order, then "Unexpected EOF" items. -/
theorem runStream_wf : ∀ (n : Nat) (s : MessageStream) (frames : List (List Nat × Message)),
    StreamWF s frames → runStream n s = refOut n frames := by
  intro n
  induction n with
  | zero => intro s frames _; rfl
  | succ n ih =>
    intro s frames hwf
    obtain ⟨s', hnext, hwf'⟩ := next_wf s frames hwf
    simp only [runStream, refOut, hnext]
    rw [ih s' frames.tail hwf']

/-- A freshly constructed stream over any chunking of the frames' bytes is
well-formed. -/
theorem new_wf (cs : List (List Nat)) (frames : List (List Nat × Message))
    (hv : ∀ fm ∈ frames, ValidFrame fm.1 fm.2)
    (hbytes : flattenL cs = framesBytes frames) :
    StreamWF (MessageStream.new cs) frames := by
  refine ⟨by simp [MessageStream.new], by simp [MessageStream.new],
    by simp [MessageStream.new, BUFSIZE], ?_, hv⟩
  show (((List.replicate BUFSIZE 0).take 0).drop 0) ++ flattenL cs = framesBytes frames
  simpa using hbytes

/-! ### Evaluation helpers for the field codecs -/

theorem be_u48_cons (a b c d e f : Nat) (r : List Nat) :
    be_u48 (a :: b :: c :: d :: e :: f :: r) =
      .Done r (a * 2 ^ 40 + b * 2 ^ 32 + c * 2 ^ 24 + d * 2 ^ 16 + e * 2 ^ 8 + f) := by
  unfold be_u48
  rw [if_neg (by simp)]
  simp [List.getD]

theorem ptake_append (xs r : List Nat) : ptake xs.length (xs ++ r) = .Done r xs := by
  unfold ptake
  rw [if_neg (by simp)]
  rw [List.take_left, List.drop_left]

theorem take_str_append (n : Nat) (xs r : List Nat) (hn : xs.length = n) :
    take_str n (xs ++ r) = if utf8Valid xs then .Done r xs else .Error := by
  subst hn
  unfold take_str
  rw [ptake_append]

/-! ### Claim theorems -/

/-- A concrete 14-byte system-event frame (the spec's worked example) and
its decoded message, used to instantiate stream-level theorems. -/
def sysFrameO : List Nat :=
  [0x00, 0x0b, 0x53, 0x00, 0x01, 0x00, 0x02, 0x00, 0x00, 0x00, 0x00, 0x00, 0x2a, 0x4f]

/-- The message `sysFrameO` decodes to. -/
def sysMsgO : Message :=
  { header := { stock_locate := 1, tracking_number := 2, timestamp := 42 },
    body := .SystemEvent .StartOfMessages }

theorem validFrame_sysO : ValidFrame sysFrameO sysMsgO := by
  refine ⟨by decide, ?_, by decide⟩
  intro ext
  simp [sysFrameO, sysMsgO, parse_message, parse_message_header, parse_system_event,
    IResult.bind, be_u16, be_u8, be_u48_cons, charAlt, pchar, mapR]

/-- C1: for every valid multi-frame byte stream (frames that decode
exactly, are incomplete on every proper front, and respect the buffer's
half-window size bound of spec §4.3) and every split point, driving the
stream decoder over a source delivering the bytes in two separate reads
yields the identical ordered sequence of items as a source delivering them
in one read. -/
theorem C1_split_transparency (frames : List (List Nat × Message))
    (hv : ∀ fm ∈ frames, ValidFrame fm.1 fm.2) (k n : Nat) :
    runStream n (MessageStream.new [framesBytes frames]) =
      runStream n (MessageStream.new
        [(framesBytes frames).take k, (framesBytes frames).drop k]) := by
  rw [runStream_wf n _ frames (new_wf _ _ hv (by simp [flattenL])),
    runStream_wf n _ frames (new_wf _ _ hv (by simp [flattenL]))]

/-- Witness for C1: a two-frame stream split in the middle of the first
frame decodes to the same five driver items as the unsplit stream. -/
theorem C1_split_transparency_witness :
    runStream 5 (MessageStream.new [framesBytes [(sysFrameO, sysMsgO), (sysFrameO, sysMsgO)]]) =
      runStream 5 (MessageStream.new
        [(framesBytes [(sysFrameO, sysMsgO), (sysFrameO, sysMsgO)]).take 9,
         (framesBytes [(sysFrameO, sysMsgO), (sysFrameO, sysMsgO)]).drop 9]) :=
  C1_split_transparency [(sysFrameO, sysMsgO), (sysFrameO, sysMsgO)]
    (by
      intro fm hfm
      have h : fm = (sysFrameO, sysMsgO) := by simpa using hfm
      rw [h]
      exact validFrame_sysO)
    9 5

/-- C2: the exact input bytes 00 0b 53 00 01 00 02 00 00 00 00 00 2a 4f
decode to a record with stock locate 1, tracking number 2, timestamp 42,
and SystemEvent body with event StartOfMessages, with zero bytes
remaining. -/
theorem C2_concrete_system_event :
    parse_message
        [0x00, 0x0b, 0x53, 0x00, 0x01, 0x00, 0x02, 0x00, 0x00, 0x00, 0x00, 0x00, 0x2a, 0x4f] =
      .Done [] { header := { stock_locate := 1, tracking_number := 2, timestamp := 42 },
                 body := .SystemEvent .StartOfMessages } := rfl

/-- C3: a frame with an unrecognized tag and a well-formed header decodes
to an `Unknown` record carrying the declared u16 length, the tag, and
exactly `length - 11` payload bytes taken verbatim; anything after the
frame is left untouched. -/
theorem C3_unknown_tag (lenH lenL tag locH locL trH trL t0 t1 t2 t3 t4 t5 : Nat)
    (payload rest : List Nat) (hH : lenH < 256) (hL : lenL < 256)
    (hlen : 11 ≤ lenH * 256 + lenL)
    (htag : tag ∉ [0x53, 0x52, 0x4C, 0x59, 0x48, 0x41, 0x55, 0x44])
    (hpay : payload.length = lenH * 256 + lenL - 11) :
    parse_message (lenH :: lenL :: tag :: locH :: locL :: trH :: trL ::
        t0 :: t1 :: t2 :: t3 :: t4 :: t5 :: (payload ++ rest)) =
      .Done rest
        { header := { stock_locate := locH * 256 + locL,
                      tracking_number := trH * 256 + trL,
                      timestamp := t0 * 2 ^ 40 + t1 * 2 ^ 32 + t2 * 2 ^ 24 +
                        t3 * 2 ^ 16 + t4 * 2 ^ 8 + t5 },
          body := .Unknown (lenH * 256 + lenL) tag payload } := by
  obtain ⟨n1, n2, n3, n4, n5, n6, n7, n8⟩ :
      tag ≠ 0x53 ∧ tag ≠ 0x52 ∧ tag ≠ 0x4C ∧ tag ≠ 0x59 ∧ tag ≠ 0x48 ∧ tag ≠ 0x41 ∧
        tag ≠ 0x55 ∧ tag ≠ 0x44 := by simpa using htag
  simp only [parse_message, parse_message_header, IResult.bind, be_u16, be_u8, be_u48_cons]
  rw [if_neg n1, if_neg n2, if_neg n3, if_neg n4, if_neg n5, if_neg n6, if_neg n7, if_neg n8]
  have hmod : (lenH * 256 + lenL + 65536 - 11) % 65536 = lenH * 256 + lenL - 11 := by omega
  rw [hmod, ← hpay, ptake_append]
  rfl

/-- Witness for C3: a 15-byte frame with tag 'Z' (0x5A), declared length
13, and a 2-byte opaque payload. -/
theorem C3_unknown_tag_witness :
    parse_message [0, 13, 0x5A, 0, 1, 0, 2, 0, 0, 0, 0, 0, 42, 0xAB, 0xCD] =
      .Done []
        { header := { stock_locate := 1, tracking_number := 2, timestamp := 42 },
          body := .Unknown 13 0x5A [0xAB, 0xCD] } :=
  C3_unknown_tag 0 13 0x5A 0 1 0 2 0 0 0 0 0 42 [0xAB, 0xCD] []
    (by decide) (by decide) (by decide) (by decide) (by decide)

/-- C4: a successful `fetch_more_bytes` call never changes the sequence of
unconsumed bytes the parser sees; the buffer indices are untouched when
the buffer was not full, and when it was exactly full the unconsumed
region `[bufstart, bufend)` is moved to offset 0 with `bufstart = 0` and
`bufend` set to its length. -/
theorem C4_fetch_compaction (s : MessageStream)
    (h1 : s.buffer.length = BUFSIZE) (h2 : s.bufstart ≤ s.bufend) (h3 : s.bufend ≤ BUFSIZE)
    (s' : MessageStream) (ct : Nat) (hf : s.fetch_more_bytes = some (s', ct)) :
    window s' = window s ∧
      (s.bufend ≠ BUFSIZE → s'.bufstart = s.bufstart ∧ s'.bufend = s.bufend) ∧
      (s.bufend = BUFSIZE → s'.bufstart = 0 ∧ s'.bufend = s.bufend - s.bufstart) := by
  obtain ⟨d, _, _, _, _, _, hwin, _, hnc, hc, _⟩ := fetch_spec s h1 h2 h3 s' ct hf
  refine ⟨hwin, hnc, fun he => ?_⟩
  obtain ⟨ha, hb⟩ := hc he
  rw [he]
  exact ⟨ha, hb⟩

/-- A concrete full-buffer decoder state (unconsumed tail of 20 bytes at
`[180, 200)`) used to witness the compaction path of C4. -/
def st4 : MessageStream :=
  { reader := [[5]], buffer := List.replicate 200 7, bufstart := 180, bufend := 200,
    bytes_read := 200, read_calls := 1, messages := 9 }

/-- The result of refilling `st4`. -/
def st4f : MessageStream × Nat := (st4.fetch_more_bytes).getD (st4, 0)

/-- Witness for C4: refilling the full state `st4` compacts, keeps the
window intact, and resets the indices as claimed. -/
theorem C4_fetch_compaction_witness :
    window st4f.1 = window st4 ∧
      (st4.bufend ≠ BUFSIZE → st4f.1.bufstart = st4.bufstart ∧ st4f.1.bufend = st4.bufend) ∧
      (st4.bufend = BUFSIZE → st4f.1.bufstart = 0 ∧ st4f.1.bufend = st4.bufend - st4.bufstart) :=
  C4_fetch_compaction st4 rfl (by decide) (by decide) st4f.1 st4f.2 rfl

/-- C5: whenever the current window does not parse as a complete frame
(the parse is `Incomplete`) and the refill call returns zero new bytes,
the driving step yields the "Unexpected EOF" error — the `Incomplete`
check comes before any emptiness check, so this holds in particular for an
empty window at a clean frame boundary (the witness below). -/
theorem C5_eof_error (s s1 : MessageStream) (nd : Nat)
    (hparse : parse_message (window s) = .Incomplete nd)
    (hfetch : s.fetch_more_bytes = some (s1, 0)) :
    s.next = some (s1, .error "Unexpected EOF") := by
  unfold MessageStream.next
  simp only [nextFuel, hparse, hfetch]
  simp

/-- The decoder over an already-exhausted source, with an empty window at
a clean frame boundary. -/
def st5 : MessageStream := MessageStream.new []

/-- The result of refilling `st5`. -/
def st5f : MessageStream × Nat := (st5.fetch_more_bytes).getD (st5, 1)

/-- Witness for C5: at a clean end of stream with an empty window the
driver still reports "Unexpected EOF". -/
theorem C5_eof_error_witness : st5.next = some (st5f.1, .error "Unexpected EOF") :=
  C5_eof_error st5 st5f.1 2 rfl rfl

/-- C6: on a byte slice of length at least 6, `be_u48` consumes exactly 6
bytes and returns their big-endian value, which is below 2^48 (top 16 bits
of the 64-bit carrier are zero); on a shorter slice it signals
`Incomplete` (with `Needed::Size(6)`) and consumes nothing. -/
theorem C6_be_u48 (i : List Nat) :
    (6 ≤ i.length → (∀ b ∈ i.take 6, b < 256) →
      be_u48 i = .Done (i.drop 6) ((i.take 6).foldl (fun a b => a * 256 + b) 0) ∧
        (i.take 6).foldl (fun a b => a * 256 + b) 0 < 2 ^ 48) ∧
    (i.length < 6 → be_u48 i = .Incomplete 6) := by
  constructor
  · intro h6 hb
    match i, h6 with
    | a :: b :: c :: d :: e :: f :: r, _ =>
      have ht : (a :: b :: c :: d :: e :: f :: r).take 6 = [a, b, c, d, e, f] := rfl
      have hdr : (a :: b :: c :: d :: e :: f :: r).drop 6 = r := rfl
      have hfold : ([a, b, c, d, e, f] : List Nat).foldl (fun x y => x * 256 + y) 0 =
          ((((a * 256 + b) * 256 + c) * 256 + d) * 256 + e) * 256 + f := by
        simp [List.foldl]
      rw [ht] at hb
      rw [ht, hdr]
      have ha : a < 256 := hb a (by simp)
      have hbb : b < 256 := hb b (by simp)
      have hc : c < 256 := hb c (by simp)
      have hd : d < 256 := hb d (by simp)
      have he : e < 256 := hb e (by simp)
      have hf : f < 256 := hb f (by simp)
      rw [hfold]
      constructor
      · rw [be_u48_cons]
        have hre : a * 2 ^ 40 + b * 2 ^ 32 + c * 2 ^ 24 + d * 2 ^ 16 + e * 2 ^ 8 + f =
            ((((a * 256 + b) * 256 + c) * 256 + d) * 256 + e) * 256 + f := by ring
        rw [hre]
      · have hp : (2 : Nat) ^ 48 = 281474976710656 := by norm_num
        rw [hp]
        omega
  · intro hlt
    unfold be_u48
    rw [if_pos hlt]

/-- Witness for C6: the spec's §8 example bytes 00 00 64 4e 43 5a decode
to 0x644e435a with two trailing bytes untouched, and a 3-byte slice is
`Incomplete`. -/
theorem C6_be_u48_witness :
    (be_u48 [0x00, 0x00, 0x64, 0x4E, 0x43, 0x5A, 1, 2] = .Done [1, 2] 1682850650 ∧
      (1682850650 : Nat) < 2 ^ 48) ∧
    be_u48 [1, 2, 3] = .Incomplete 6 := by
  have hv : (([0x00, 0x00, 0x64, 0x4E, 0x43, 0x5A, 1, 2] : List Nat).take 6).foldl
      (fun a b => a * 256 + b) 0 = 1682850650 := by decide
  have hd : ([0x00, 0x00, 0x64, 0x4E, 0x43, 0x5A, 1, 2] : List Nat).drop 6 = [1, 2] := by decide
  have h := (C6_be_u48 [0x00, 0x00, 0x64, 0x4E, 0x43, 0x5A, 1, 2]).1 (by decide) (by decide)
  rw [hv, hd] at h
  exact ⟨h, (C6_be_u48 [1, 2, 3]).2 (by decide)⟩

/-- C7: when the record-grammar parse of the current window is
`Incomplete`, the driving step neither consumes window bytes nor exposes
any partial state: it equals the driving step on the refilled state, whose
window still begins with every previously buffered unconsumed byte, so the
retry re-decodes the frame from its first byte. -/
theorem C7_incomplete_retry (s s1 : MessageStream) (nd ct : Nat)
    (h1 : s.buffer.length = BUFSIZE) (h2 : s.bufstart ≤ s.bufend) (h3 : s.bufend ≤ BUFSIZE)
    (hparse : parse_message (window s) = .Incomplete nd)
    (hfetch : s.fetch_more_bytes = some (s1, ct)) (hct : ct ≠ 0) :
    s.next = MessageStream.next { s1 with bufend := s1.bufend + ct, bytes_read := s1.bytes_read + ct } ∧ ∃ d, window { s1 with bufend := s1.bufend + ct, bytes_read := s1.bytes_read + ct } = window s ++ d := by
  obtain ⟨d, hdlen, hdapp, hb1, hs1se, hs1eb, hwin1, hwinb, _, _, _⟩ :=
    fetch_spec s h1 h2 h3 s1 ct hfetch
  constructor
  · unfold MessageStream.next
    have hstep : nextFuel (totalLen s.reader + 1) s =
        nextFuel (totalLen s.reader)
          { s1 with bufend := s1.bufend + ct, bytes_read := s1.bytes_read + ct } := by
      simp only [nextFuel, hparse, hfetch]
      rw [if_neg hct]
    rw [hstep]
    apply nextFuel_irrel
    · have := fetch_totalLen s s1 ct hfetch
      show totalLen s1.reader < totalLen s.reader
      omega
    · exact Nat.lt_succ_self _
  · exact ⟨d, hwinb⟩

/-- A fresh decoder over a source holding two bytes: its first driving
step parses an empty window (`Incomplete`) and refills. -/
def st7 : MessageStream := MessageStream.new [[1, 2]]

/-- The result of refilling `st7`. -/
def st7f : MessageStream × Nat := (st7.fetch_more_bytes).getD (st7, 0)

/-- Witness for C7: the step on `st7` equals the step on the refilled
state, whose window extends the (empty) old window. -/
theorem C7_incomplete_retry_witness :
    st7.next = MessageStream.next { st7f.1 with bufend := st7f.1.bufend + st7f.2, bytes_read := st7f.1.bytes_read + st7f.2 } ∧ ∃ d, window { st7f.1 with bufend := st7f.1.bufend + st7f.2, bytes_read := st7f.1.bytes_read + st7f.2 } = window st7 ++ d :=
  C7_incomplete_retry st7 st7f.1 2 st7f.2 rfl (by decide) (by decide) rfl rfl (by decide)

/-- Single-byte text in the sense of the spec's "valid single-byte text":
every character encodes in one byte, i.e. every byte is ASCII (< 0x80). -/
def singleByteText (bs : List Nat) : Bool := bs.all (fun b => b < 0x80)

/-- Counterexample to C8 as stated: the 8-byte stock field C3 A9 20 20 20
20 20 20 ("é" followed by six spaces) is not valid single-byte text, yet
the AddOrder record decodes successfully — `take_str!` accepts any valid
UTF-8, including multi-byte sequences, so "not single-byte text" does not
imply a decode error. -/
theorem C8_counterexample :
    singleByteText [0xC3, 0xA9, 0x20, 0x20, 0x20, 0x20, 0x20, 0x20] = false ∧
    parse_add_order
        [0x00, 0x00, 0x00, 0x00, 0x00, 0x00, 0x05, 0x84, 0x42, 0x00, 0x00, 0x00, 0x64,
         0xC3, 0xA9, 0x20, 0x20, 0x20, 0x20, 0x20, 0x20, 0x00, 0x00, 0x27, 0x10] =
      .Done [] { reference := 1412, side := .Buy, shares := 100,
                 stock := [0xC3, 0xA9, 0x20, 0x20, 0x20, 0x20, 0x20, 0x20],
                 price := 10000 } := by
  exact ⟨rfl, rfl⟩

/-- C8 (amended): a fixed-length text field (4- or 8-char) copies exactly
`n` bytes verbatim, padding included, when they are valid UTF-8 text
(multi-byte sequences allowed, so the bytes need not be single-byte
characters); if the `n` bytes present are not valid UTF-8 the decode is a
hard `Error`, not `Incomplete` — at record level an invalid stock field
makes the whole AddOrder decode fail — and with fewer than `n` bytes it is
`Incomplete`. -/
theorem C8_text_fields (n : Nat) (i : List Nat) (hn : n = 4 ∨ n = 8) :
    (n ≤ i.length →
      (utf8Valid (i.take n) = true → take_str n i = .Done (i.drop n) (i.take n)) ∧
      (utf8Valid (i.take n) = false → take_str n i = .Error)) ∧
    (i.length < n → take_str n i = .Incomplete n) ∧
    (∀ a1 a2 a3 a4 a5 a6 a7 a8 c1 c2 c3 c4 : Nat, ∀ txt8 more : List Nat,
      txt8.length = 8 → utf8Valid txt8 = false →
      parse_add_order (a1 :: a2 :: a3 :: a4 :: a5 :: a6 :: a7 :: a8 :: 0x42 ::
        c1 :: c2 :: c3 :: c4 :: (txt8 ++ more)) = .Error) := by
  refine ⟨?_, ?_, ?_⟩
  · intro hle
    have hp : ptake n i = .Done (i.drop n) (i.take n) := by
      unfold ptake
      rw [if_neg (by omega)]
    constructor <;> intro hv <;> unfold take_str <;> rw [hp] <;> simp [hv]
  · intro hlt
    unfold take_str ptake
    rw [if_pos hlt]
  · intro a1 a2 a3 a4 a5 a6 a7 a8 c1 c2 c3 c4 txt8 more h8 hv
    have hts : take_str 8 (txt8 ++ more) = .Error := by
      rw [take_str_append 8 txt8 more h8, hv]
      rfl
    simp [parse_add_order, IResult.bind, be_u64, be_u32, charAlt, pchar, mapR, hts]

/-- Witness for C8: an all-ASCII 8-byte field is copied verbatim with the
remainder untouched. -/
theorem C8_text_fields_witness :
    take_str 8 [65, 66, 67, 68, 69, 70, 71, 72, 9, 9] = .Done [9, 9] [65, 66, 67, 68, 69, 70, 71, 72] := by
  have h := ((C8_text_fields 8 [65, 66, 67, 68, 69, 70, 71, 72, 9, 9] (Or.inr rfl)).1
      (by decide)).1 (by decide)
  have ht : ([65, 66, 67, 68, 69, 70, 71, 72, 9, 9] : List Nat).take 8 =
      [65, 66, 67, 68, 69, 70, 71, 72] := by decide
  have hd : ([65, 66, 67, 68, 69, 70, 71, 72, 9, 9] : List Nat).drop 8 = [9, 9] := by decide
  rw [ht, hd] at h
  exact h

/-- Inverting one sequencing step: a `bind` that ends in `Done` came from
a `Done`. -/
theorem bind_done {α β : Type} {r : IResult α} {f : List Nat → α → IResult β}
    {rest : List Nat} {b : β} (h : r.bind f = .Done rest b) :
    ∃ r1 a, r = .Done r1 a ∧ f r1 a = .Done rest b := by
  cases r with
  | Done r1 a => exact ⟨r1, a, rfl, h⟩
  | Error => simp [IResult.bind] at h
  | Incomplete n => simp [IResult.bind] at h

/-- C9: every successfully decoded StockDirectory record carries the
constants `IssueClassification.Unit` and `IssueSubType.AlphaIndexETNs`,
whatever the wire bytes were: the decoder skips 1 and 2 bytes there
without interpreting them. -/
theorem C9_stock_directory_constants (i r : List Nat) (sd : StockDirectory)
    (h : parse_stock_directory i = .Done r sd) :
    sd.issue_classification = IssueClassification.Unit ∧
      sd.issue_subtype = IssueSubType.AlphaIndexETNs := by
  unfold parse_stock_directory at h
  obtain ⟨i1, v1, _, h⟩ := bind_done h
  obtain ⟨i2, v2, _, h⟩ := bind_done h
  obtain ⟨i3, v3, _, h⟩ := bind_done h
  obtain ⟨i4, v4, _, h⟩ := bind_done h
  obtain ⟨i5, v5, _, h⟩ := bind_done h
  obtain ⟨i6, v6, _, h⟩ := bind_done h
  obtain ⟨i7, v7, _, h⟩ := bind_done h
  obtain ⟨i8, v8, _, h⟩ := bind_done h
  obtain ⟨i9, v9, _, h⟩ := bind_done h
  obtain ⟨i10, v10, _, h⟩ := bind_done h
  obtain ⟨i11, v11, _, h⟩ := bind_done h
  obtain ⟨i12, v12, _, h⟩ := bind_done h
  obtain ⟨i13, v13, _, h⟩ := bind_done h
  obtain ⟨i14, v14, _, h⟩ := bind_done h
  obtain ⟨-, hsd⟩ := IResult.Done.inj h
  rw [← hsd]
  exact ⟨rfl, rfl⟩

/-- The repository's own stock-directory test vector (28 body bytes). -/
def stockDirBytes : List Nat :=
  [0x41, 0x20, 0x20, 0x20, 0x20, 0x20, 0x20, 0x20, 0x4E, 0x20, 0x00, 0x00, 0x00, 0x64,
   0x4E, 0x43, 0x5A, 0x20, 0x50, 0x4E, 0x20, 0x31, 0x4E, 0x00, 0x00, 0x00, 0x00, 0x4E]

/-- The record `stockDirBytes` decodes to. -/
def stockDirRec : StockDirectory :=
  { stock := [0x41, 0x20, 0x20, 0x20, 0x20, 0x20, 0x20, 0x20],
    market_category := .Nyse, financial_status := .Unavailable,
    round_lot_size := 100, round_lots_only := false,
    issue_classification := .Unit, issue_subtype := .AlphaIndexETNs,
    authenticity := true, short_sale_threshold := some false, ipo_flag := none,
    luld_ref_price_tier := .Tier1, etp_flag := some false,
    etp_leverage_factor := 0, inverse_indicator := false }

/-- Witness for C9: the repository's stock-directory test vector decodes,
and its record carries the two constants. -/
theorem C9_stock_directory_constants_witness :
    stockDirRec.issue_classification = IssueClassification.Unit ∧
      stockDirRec.issue_subtype = IssueSubType.AlphaIndexETNs :=
  C9_stock_directory_constants stockDirBytes [] stockDirRec (by decide)

/-- C10: the TradingAction decoder consumes the 8-byte symbol, the 1-byte
state, one skipped reserved byte `b`, and the 4-byte reason — 14 bytes in
all — and the decoded record does not depend on the skipped byte's value. -/
theorem C10_trading_action_reserved (s8 r4 rest : List Nat) (st b : Nat) (tsv : TradingState)
    (hs8 : s8.length = 8) (hu8 : utf8Valid s8 = true)
    (hr4 : r4.length = 4) (hu4 : utf8Valid r4 = true)
    (hst : (st, tsv) ∈ [(0x48, TradingState.Halted), (0x50, TradingState.Paused),
      (0x51, TradingState.QuotationOnly), (0x54, TradingState.Trading)]) :
    parse_trading_action (s8 ++ st :: b :: (r4 ++ rest)) =
      .Done rest (.TradingAction s8 tsv r4) := by
  have hts8 : take_str 8 (s8 ++ st :: b :: (r4 ++ rest)) =
      .Done (st :: b :: (r4 ++ rest)) s8 := by
    rw [take_str_append 8 s8 _ hs8, hu8]
    rfl
  have hts4 : take_str 4 (r4 ++ rest) = .Done rest r4 := by
    rw [take_str_append 4 r4 rest hr4, hu4]
    rfl
  rcases (by simpa using hst :
      st = 0x48 ∧ tsv = TradingState.Halted ∨ st = 0x50 ∧ tsv = TradingState.Paused ∨
      st = 0x51 ∧ tsv = TradingState.QuotationOnly ∨ st = 0x54 ∧ tsv = TradingState.Trading)
    with ⟨h1, h2⟩ | ⟨h1, h2⟩ | ⟨h1, h2⟩ | ⟨h1, h2⟩ <;> subst h1 <;> subst h2 <;>
    simp [parse_trading_action, IResult.bind, charAlt, pchar, be_u8, hts8, hts4]

/-- Witness for C10: a concrete halted-trading frame body, with reserved
byte 0x99, decodes to the expected record with nothing left over. -/
theorem C10_trading_action_reserved_witness :
    parse_trading_action ([0x5A, 0x58, 0x5A, 0x5A, 0x54, 0x20, 0x20, 0x20] ++
        0x48 :: 0x99 :: ([0x49, 0x50, 0x4F, 0x20] ++ [])) =
      .Done [] (.TradingAction [0x5A, 0x58, 0x5A, 0x5A, 0x54, 0x20, 0x20, 0x20]
        TradingState.Halted [0x49, 0x50, 0x4F, 0x20]) :=
  C10_trading_action_reserved [0x5A, 0x58, 0x5A, 0x5A, 0x54, 0x20, 0x20, 0x20]
    [0x49, 0x50, 0x4F, 0x20] [] 0x48 0x99 TradingState.Halted
    (by decide) (by decide) (by decide) (by decide) (by decide)
